import Mathlib

/-!
Shallow embedding of the tabular-to-text ingestion pipeline and the
structured-output extractor of the `text-to-json` repository
(`src/utils/parsing.py` and `src/utils/parsing_answer.py`).

Conventions of the embedding:
* Python strings are Lean `String`s (or `List Char` where character-level
  scanning is needed); `len` is `String.length` / `List.length`.
* Python whitespace (`str.strip`, regex `\s`) is modelled by the ASCII
  whitespace set; all inputs exercised by the development are ASCII.
* The pandas / filesystem boundary (loading a workbook, rendering one sheet
  to markdown) is abstracted: a workbook is its ordered list of sheet names
  together with a per-sheet rendering function `render : String → String`
  standing for the `parse_raw_data(...)` call made for each sheet.
* Fallible Python code (raise) is `Except PError`.
-/

/-- Error taxonomy of the two modules, one constructor per `raise` site.
The string payloads mirror the data interpolated into the Python messages. -/
inductive PError where
  | fileNotFound (path : String)
  | unsupportedExt (ext : String)
  | startSectionNotFound (pat : String)
  | endSectionNotFound (pat : String)
  | jsonNotFound
  | jsonInvalid
  | schemaNotObject
deriving DecidableEq, Repr

/-- ASCII portion of Python's whitespace (`str.strip`, regex `\s`):
space, tab, newline, carriage return, vertical tab, form feed. -/
def isPySpace (c : Char) : Bool :=
  c == ' ' || c == '\t' || c == '\n' || c == '\r' || c == '\x0b' || c == '\x0c'

/-- Python `str.lstrip()` (ASCII whitespace). -/
def pyLStripS (s : String) : String := ⟨s.data.dropWhile isPySpace⟩

/-- Python `"".join(parts)`. -/
def concatStrings : List String → String
  | [] => ""
  | p :: ps => p ++ concatStrings ps

/-- The include/exclude sheet filtering of
`parse_workbook_all_sheets_to_markdown` (parsing.py lines 164-170):
first restrict to the include list when given, then remove the
excluded names from that filtered list.  Set membership of the Python
code is list membership here. -/
def applySheetFilters (names : List String)
    (includeSheets excludeSheets : Option (List String)) : List String :=
  let names1 :=
    match includeSheets with
    | none => names
    | some inc => names.filter (fun s => inc.contains s)
  match excludeSheets with
  | none => names1
  | some exc => names1.filter (fun s => !exc.contains s)

/-- The per-sheet block built at parsing.py line 189:
`f"\n\n## Sheet: {sheet}\n\n{sheet_md}\n"`. -/
def sheetBlock (sheet sheetMd : String) : String :=
  "\n\n## Sheet: " ++ sheet ++ "\n\n" ++ sheetMd ++ "\n"

/-- The truncation note built at parsing.py lines 194-198. -/
def truncNote (maxTotalChars : Nat) (sheet : String) : String :=
  "\n\n---\n*Stopped concatenation before adding sheet '" ++ sheet ++
    "' because it would exceed max_total_chars=" ++ toString maxTotalChars ++ ".*\n"

/-- The concatenation loop of parsing.py lines 175-205.  `totalLen` is the
running `total_len`; the returned list is the `parts` the loop appends.
When a block would push `total_len` past the budget the loop stops
(`break`), appending the note only if the note itself still fits. -/
def concatAux (maxTotalChars : Nat) (render : String → String) :
    List String → Nat → List String
  | [], _ => []
  | sheet :: rest, totalLen =>
    let block := sheetBlock sheet (render sheet)
    if maxTotalChars < totalLen + block.length then
      let note := truncNote maxTotalChars sheet
      if totalLen + note.length ≤ maxTotalChars then [note] else []
    else
      block :: concatAux maxTotalChars render rest (totalLen + block.length)

/-- `parse_workbook_all_sheets_to_markdown` (parsing.py lines 124-218),
after its path-existence and extension guards: the workbook is abstracted
to its native sheet-name order `sheetNames` plus the per-sheet markdown
`render` (the `parse_raw_data` call of lines 177-186).  The function
filters the sheets, runs the budgeted loop, joins the parts and
left-strips the result (line 207). -/
def parse_workbook_all_sheets_to_markdown (maxTotalChars : Nat)
    (render : String → String) (sheetNames : List String)
    (includeSheets excludeSheets : Option (List String)) : String :=
  pyLStripS (concatStrings
    (concatAux maxTotalChars render
      (applySheetFilters sheetNames includeSheets excludeSheets) 0))

/-- Substring test (used to state whole-block presence). -/
def containsSub (hay needle : String) : Bool :=
  (List.range (hay.data.length + 1)).any
    (fun i => needle.data.isPrefixOf (hay.data.drop i))

/-- Python `pathlib.Path.suffix` on a path string: the final component's
extension, including the dot, when the dot is strictly inside the name. -/
def pathSuffix (path : String) : String :=
  let name := (path.data.reverse.takeWhile (fun c => c ≠ '/')).reverse
  let afterDot := name.reverse.takeWhile (fun c => c ≠ '.')
  if afterDot.length = name.length then ""
  else if afterDot.length = 0 then ""
  else if afterDot.length = name.length - 1 then ""
  else ⟨'.' :: afterDot.reverse⟩

/-- ASCII `str.lower()`. -/
def strLower (s : String) : String := ⟨s.data.map Char.toLower⟩

def SUPPORTED_EXCEL_EXTS : List String := [".xlsx", ".xls", ".xlsm", ".xlsb"]
def SUPPORTED_CSV_EXTS : List String := [".csv"]

/-- `parse_raw_data` (parsing.py lines 29-122): the existence check of
line 57 precedes the extension dispatch of lines 60-102.  The filesystem
is abstracted to the predicate `fsExists`, and the two pandas loading
branches (CSV lines 63-76, Excel lines 78-96) together with the later
normalization/markdown steps are abstracted to `loadCsv` / `loadExcel`. -/
def parse_raw_data (fsExists : String → Bool)
    (loadCsv loadExcel : String → String) (path : String) :
    Except PError String :=
  if !fsExists path then .error (.fileNotFound path)
  else
    let ext := strLower (pathSuffix path)
    if SUPPORTED_CSV_EXTS.contains ext then .ok (loadCsv path)
    else if SUPPORTED_EXCEL_EXTS.contains ext then .ok (loadExcel path)
    else .error (.unsupportedExt ext)

/-! ## parsing_answer.py: section splitting -/

/-- `_normalize_newlines` first pass: `s.replace("\r\n", "\n")`,
a left-to-right scan replacing each non-overlapping occurrence. -/
def normCRLF : List Char → List Char
  | [] => []
  | '\r' :: '\n' :: rest => '\n' :: normCRLF rest
  | c :: rest => c :: normCRLF rest

/-- `_normalize_newlines` (parsing_answer.py lines 21-22). -/
def _normalize_newlines (s : String) : String :=
  ⟨(normCRLF s.data).map (fun c => if c == '\r' then '\n' else c)⟩

/-- Case-insensitive literal match (regex `re.IGNORECASE` on a literal):
returns the remainder of the text after the literal. -/
def matchLitCI : List Char → List Char → Option (List Char)
  | [], s => some s
  | _, [] => none
  | p :: ps, c :: cs => if p.toLower == c.toLower then matchLitCI ps cs else none

/-- The three section markers of `_SECTION_PATTERNS`. -/
inductive Marker where
  | report
  | json
  | json_schema
deriving DecidableEq, Repr

/-- The word inside the marker pattern. -/
def markerWord : Marker → List Char
  | .report => "REPORT".data
  | .json => "JSON".data
  | .json_schema => "JSON_SCHEMA".data

/-- The literal regex pattern string (used in the error messages,
exactly the `_SECTION_PATTERNS` values of parsing_answer.py lines 14-18). -/
def markerPat : Marker → String
  | .report => "===\\s*REPORT\\s*==="
  | .json => "===\\s*JSON\\s*==="
  | .json_schema => "===\\s*JSON_SCHEMA\\s*==="

/-- Match of the regex `===\s*WORD\s*===` at the head of `s` (IGNORECASE),
returning the remainder after the match.  Greedy `\s*` needs no
backtracking here because the characters that follow it in the pattern
(`=` and the first letter of WORD) are never whitespace, so maximal
munch of whitespace is exact. -/
def markerHere (word : List Char) (s : List Char) : Option (List Char) :=
  match matchLitCI "===".data s with
  | none => none
  | some r1 =>
    match matchLitCI word (r1.dropWhile isPySpace) with
    | none => none
    | some r2 => matchLitCI "===".data (r2.dropWhile isPySpace)

/-- `re.search` of a marker pattern: the leftmost position where the
pattern matches, returned as `(match.start, match.end)` indices. -/
def searchMarkerAux (word : List Char) : List Char → Nat → Option (Nat × Nat)
  | [], _ => none
  | s@(_ :: rest), i =>
    match markerHere word s with
    | some rem => some (i, i + (s.length - rem.length))
    | none => searchMarkerAux word rest (i + 1)

def searchMarker (word : List Char) (s : List Char) : Option (Nat × Nat) :=
  searchMarkerAux word s 0

/-- Python `str.strip()` (ASCII whitespace), on character lists. -/
def pyStrip (s : List Char) : List Char :=
  ((s.dropWhile isPySpace).reverse.dropWhile isPySpace).reverse

/-- Python `str.rstrip()`, on character lists. -/
def pyRStrip (s : List Char) : List Char :=
  (s.reverse.dropWhile isPySpace).reverse

/-- `_extract_between` (parsing_answer.py lines 25-43): find the start
marker (error naming its pattern if absent), then cut at the end marker
searched in the text after the start match (error naming its pattern if
absent), or take everything to end of text; finally `strip` the chunk. -/
def _extract_between (text : List Char) (startM : Marker) (endM : Option Marker) :
    Except PError (List Char) :=
  match searchMarker (markerWord startM) text with
  | none => .error (.startSectionNotFound (markerPat startM))
  | some (_, e) =>
    let rest := text.drop e
    match endM with
    | none => .ok (pyStrip rest)
    | some em =>
      match searchMarker (markerWord em) rest with
      | none => .error (.endSectionNotFound (markerPat em))
      | some (es, _) => .ok (pyStrip (rest.take es))

/-! ## parsing_answer.py: JSON extraction from a chunk -/

/-- First index of an occurrence of `needle` in `s` (case-sensitive). -/
def findSub (needle : List Char) : List Char → Option Nat
  | [] => if needle.isEmpty then some 0 else none
  | s@(_ :: rest) =>
    if needle.isPrefixOf s then some 0
    else (findSub needle rest).map (· + 1)

/-- Match of the fenced-block regex ```` ```json\s*\n(.*?)\n``` ````
(IGNORECASE, DOTALL) at the head of `s`, returning group 1.
Backtracking semantics of `\s*\n`: the engine binds the `\n` to the
newlines of the maximal whitespace run after ```` ```json ````, trying the
last newline first; for each such split the lazy group ends at the first
following occurrence of `"\n```"`. -/
def fencedHere (s : List Char) : Option (List Char) :=
  match matchLitCI "```json".data s with
  | none => none
  | some r =>
    let w := r.takeWhile isPySpace
    let nlSplits := ((w.enum.filter (fun p => p.2 == '\n')).map (fun p => p.1)).reverse
    nlSplits.findSome? (fun j =>
      let content := r.drop (j + 1)
      (findSub "\n```".data content).map (fun q => content.take q))

/-- `re.search` of the fenced-block regex: leftmost matching position. -/
def searchFenced : List Char → Option (List Char)
  | [] => none
  | s@(_ :: rest) =>
    match fencedHere s with
    | some g => some g
    | none => searchFenced rest

/-- Match of one alternative of `(\{.*\}|\[.*\])\s*$` at the head of `s`
(DOTALL): `s` must start with the opener, and greedy `.*` runs to the
last closer that is followed only by whitespace; since any position
whose suffix is all-whitespace lies inside the trailing whitespace run,
that closer is exactly the last character of `rstrip s`. -/
def spanEndHere (s : List Char) : Option (List Char) :=
  match s with
  | [] => none
  | c :: _ =>
    if c == '\x7b' then
      let body := pyRStrip s
      if 2 ≤ body.length && body.getLast? == some '\x7d' then some body else none
    else if c == '[' then
      let body := pyRStrip s
      if 2 ≤ body.length && body.getLast? == some ']' then some body else none
    else none

/-- `re.search(r"(\{.*\}|\[.*\])\s*$", ·, re.DOTALL)`: leftmost position
where one alternative matches; the returned value is group 1. -/
def searchSpanEnd : List Char → Option (List Char)
  | [] => none
  | s@(_ :: rest) =>
    match spanEndHere s with
    | some g => some g
    | none => searchSpanEnd rest

/-- Prefix of `s` running through the last occurrence of `c`, when any. -/
def takeThroughLast (c : Char) : List Char → Option (List Char)
  | [] => none
  | x :: rest =>
    match takeThroughLast c rest with
    | some t => some (x :: t)
    | none => if x == c then some [x] else none

/-- Match of one alternative of `(\{.*\}|\[.*\])` at the head of `s`
(DOTALL): opener at the head, greedy `.*` to the last closer anywhere
after it. -/
def spanAnyHere (s : List Char) : Option (List Char) :=
  match s with
  | [] => none
  | c :: rest =>
    if c == '\x7b' then (takeThroughLast '\x7d' rest).map (fun t => c :: t)
    else if c == '[' then (takeThroughLast ']' rest).map (fun t => c :: t)
    else none

/-- `re.search(r"(\{.*\}|\[.*\])", ·, re.DOTALL)`: leftmost match. -/
def searchSpanAny : List Char → Option (List Char)
  | [] => none
  | s@(_ :: rest) =>
    match spanAnyHere s with
    | some g => some g
    | none => searchSpanAny rest

/-! ## json.loads: the JSON fragment the documents use

The parser covers objects, arrays, strings with the standard escapes,
integers, `true`/`false`/`null`.  Python divergences outside the
fragment the repository's documents use: non-integer numbers are
rejected here, leading zeros are not rejected, `\uXXXX` escapes for
surrogates decode to the null character. -/

inductive JsonVal where
  | null
  | bool (b : Bool)
  | num (n : Int)
  | str (s : String)
  | arr (elems : List JsonVal)
  | obj (fields : List (String × JsonVal))
deriving Repr

/-- JSON inter-token whitespace (`json.decoder.WHITESPACE`). -/
def jsonWsChar (c : Char) : Bool :=
  c == ' ' || c == '\t' || c == '\n' || c == '\r'

/-- Python `dict` insertion: an existing key keeps its position and takes
the new value, a new key is appended. -/
def insertKey (fields : List (String × JsonVal)) (k : String) (v : JsonVal) :
    List (String × JsonVal) :=
  if fields.any (fun p => p.1 == k) then
    fields.map (fun p => if p.1 == k then (k, v) else p)
  else fields ++ [(k, v)]

def hexDigitVal (c : Char) : Option Nat :=
  if '0' ≤ c && c ≤ '9' then some (c.toNat - 48)
  else if 'a' ≤ c && c ≤ 'f' then some (c.toNat - 87)
  else if 'A' ≤ c && c ≤ 'F' then some (c.toNat - 55)
  else none

/-- JSON string body after the opening quote: returns the decoded
characters and the remainder after the closing quote. -/
def parseStrChars : Nat → List Char → Option (List Char × List Char)
  | 0, _ => none
  | _ + 1, [] => none
  | _ + 1, '"' :: rest => some ([], rest)
  | fuel + 1, '\\' :: esc =>
    match esc with
    | '"' :: r => (parseStrChars fuel r).map (fun p => ('"' :: p.1, p.2))
    | '\\' :: r => (parseStrChars fuel r).map (fun p => ('\\' :: p.1, p.2))
    | '/' :: r => (parseStrChars fuel r).map (fun p => ('/' :: p.1, p.2))
    | 'b' :: r => (parseStrChars fuel r).map (fun p => ('\x08' :: p.1, p.2))
    | 'f' :: r => (parseStrChars fuel r).map (fun p => ('\x0c' :: p.1, p.2))
    | 'n' :: r => (parseStrChars fuel r).map (fun p => ('\n' :: p.1, p.2))
    | 'r' :: r => (parseStrChars fuel r).map (fun p => ('\r' :: p.1, p.2))
    | 't' :: r => (parseStrChars fuel r).map (fun p => ('\t' :: p.1, p.2))
    | 'u' :: h1 :: h2 :: h3 :: h4 :: r =>
      match hexDigitVal h1, hexDigitVal h2, hexDigitVal h3, hexDigitVal h4 with
      | some a, some b, some c, some d =>
        (parseStrChars fuel r).map
          (fun p => (Char.ofNat (((a * 16 + b) * 16 + c) * 16 + d) :: p.1, p.2))
      | _, _, _, _ => none
    | _ => none
  | fuel + 1, c :: rest => (parseStrChars fuel rest).map (fun p => (c :: p.1, p.2))

/-- JSON integer literal: optional minus, a digit run, and no fraction or
exponent part following (non-integer numbers are outside the fragment). -/
def parseNum (s : List Char) : Option (JsonVal × List Char) :=
  let (neg, s1) :=
    match s with
    | '-' :: r => (true, r)
    | _ => (false, s)
  let digits := s1.takeWhile (fun c => c.isDigit)
  if digits.isEmpty then none
  else
    let rest := s1.drop digits.length
    match rest with
    | '.' :: _ => none
    | 'e' :: _ => none
    | 'E' :: _ => none
    | _ =>
      let n : Nat := digits.foldl (fun acc c => acc * 10 + (c.toNat - 48)) 0
      some (.num (if neg then -(n : Int) else (n : Int)), rest)

mutual

/-- JSON value parser: whitespace is skipped before the value, then the
value is dispatched on its first character as `json.decoder` does. -/
def parseVal : Nat → List Char → Option (JsonVal × List Char)
  | 0, _ => none
  | fuel + 1, s =>
    match s.dropWhile jsonWsChar with
    | '\x7b' :: rest => parseObjStart fuel rest
    | '[' :: rest => parseArrStart fuel rest
    | '"' :: rest =>
      (parseStrChars fuel rest).map (fun p => (JsonVal.str ⟨p.1⟩, p.2))
    | 't' :: rest =>
      if "rue".data.isPrefixOf rest then some (.bool true, rest.drop 3) else none
    | 'f' :: rest =>
      if "alse".data.isPrefixOf rest then some (.bool false, rest.drop 4) else none
    | 'n' :: rest =>
      if "ull".data.isPrefixOf rest then some (.null, rest.drop 3) else none
    | s1 => parseNum s1

/-- Object body right after `{`: empty object, or the member list. -/
def parseObjStart : Nat → List Char → Option (JsonVal × List Char)
  | 0, _ => none
  | fuel + 1, s =>
    match s.dropWhile jsonWsChar with
    | '\x7d' :: r => some (.obj [], r)
    | _ => parseObjBody fuel [] s

/-- One `"key": value` member followed by `,` (more members) or `}`. -/
def parseObjBody : Nat → List (String × JsonVal) → List Char →
    Option (JsonVal × List Char)
  | 0, _, _ => none
  | fuel + 1, acc, s =>
    match s.dropWhile jsonWsChar with
    | '"' :: rest =>
      match parseStrChars fuel rest with
      | none => none
      | some (k, r1) =>
        match r1.dropWhile jsonWsChar with
        | ':' :: r2 =>
          match parseVal fuel r2 with
          | none => none
          | some (v, r3) =>
            let acc1 := insertKey acc ⟨k⟩ v
            match r3.dropWhile jsonWsChar with
            | ',' :: r4 => parseObjBody fuel acc1 r4
            | '\x7d' :: r4 => some (.obj acc1, r4)
            | _ => none
        | _ => none
    | _ => none

/-- Array body right after `[`: empty array, or the element list. -/
def parseArrStart : Nat → List Char → Option (JsonVal × List Char)
  | 0, _ => none
  | fuel + 1, s =>
    match s.dropWhile jsonWsChar with
    | ']' :: r => some (.arr [], r)
    | _ => parseArrBody fuel [] s

/-- One element followed by `,` (more elements) or `]`. -/
def parseArrBody : Nat → List JsonVal → List Char → Option (JsonVal × List Char)
  | 0, _, _ => none
  | fuel + 1, acc, s =>
    match parseVal fuel s with
    | none => none
    | some (v, r) =>
      match r.dropWhile jsonWsChar with
      | ',' :: r2 => parseArrBody fuel (acc ++ [v]) r2
      | ']' :: r2 => some (.arr (acc ++ [v]), r2)
      | _ => none

end

/-- `json.loads`: parse one value and require only whitespace after it. -/
def jsonLoads (s : List Char) : Option JsonVal :=
  match parseVal (2 * s.length + 8) s with
  | some (v, rest) => if (rest.dropWhile jsonWsChar).isEmpty then some v else none
  | none => none

/-- `_extract_json_from_chunk` (parsing_answer.py lines 46-70): prefer
the fenced ```` ```json ```` block; else the end-anchored span regex on
`chunk.strip()`; else the first span anywhere in `chunk`; the chosen
text is stripped and handed to `json.loads`. -/
def _extract_json_from_chunk (chunk : List Char) : Except PError JsonVal :=
  let jsonText :=
    match searchFenced chunk with
    | some g => some (pyStrip g)
    | none =>
      match searchSpanEnd (pyStrip chunk) with
      | some g => some (pyStrip g)
      | none => (searchSpanAny chunk).map pyStrip
  match jsonText with
  | none => .error .jsonNotFound
  | some t =>
    match jsonLoads t with
    | some v => .ok v
    | none => .error .jsonInvalid

/-- The terminal artifact of the extraction path (`ParsedDoc`). -/
structure ParsedDoc where
  report : String
  json_obj : JsonVal
  json_schema : JsonVal

/-- `parse_report_json_schema` (parsing_answer.py lines 73-120):
normalize newlines; cut the REPORT, JSON and JSON_SCHEMA chunks; extract
JSON from the two JSON-bearing chunks; require the schema to be an
object (`isinstance(json_schema, dict)`). -/
def parse_report_json_schema (text : String) : Except PError ParsedDoc :=
  let s := (_normalize_newlines text).data
  match _extract_between s Marker.report (some Marker.json) with
  | .error e => .error e
  | .ok report_chunk =>
    match _extract_between s Marker.json (some Marker.json_schema) with
    | .error e => .error e
    | .ok json_chunk =>
      match _extract_between s Marker.json_schema none with
      | .error e => .error e
      | .ok schema_chunk =>
        match _extract_json_from_chunk json_chunk with
        | .error e => .error e
        | .ok json_obj =>
          match _extract_json_from_chunk schema_chunk with
          | .error e => .error e
          | .ok json_schema =>
            match json_schema with
            | .obj fields => .ok ⟨⟨pyStrip report_chunk⟩, json_obj, .obj fields⟩
            | _ => .error .schemaNotObject

/-! ## Named inputs used by the concrete theorems -/

/-- A rendering where sheet `A` is short and every other sheet long. -/
def render1 : String → String :=
  fun s => if s = "A" then "x" else ⟨List.replicate 20 'y'⟩

/-- The rendered block of a sheet inside the concatenation loop. -/
def renderBlock (render : String → String) (s : String) : String :=
  sheetBlock s (render s)

/-- Total length of the rendered blocks of a list of sheets. -/
def blocksLen (render : String → String) (l : List String) : Nat :=
  (l.map (fun s => (renderBlock render s).length)).sum

/-- The minimal two-section document of the spec's round-trip property. -/
def minimalDoc : String :=
  "=== JSON ===\n```json\n\x7b\"a\":1\x7d\n```\n=== JSON_SCHEMA ===\n```json\n\x7b\"type\":\"object\"\x7d\n```"

/-- `minimalDoc` with a REPORT section prepended. -/
def fullDoc : String := "=== REPORT ===\nSome report.\n" ++ minimalDoc

/-- A full-shape document whose JSON_SCHEMA section is absent. -/
def noSchemaDoc : String :=
  "=== REPORT ===\nr\n=== JSON ===\n```json\n\x7b\"a\":1\x7d\n```"

/-- A full-shape document whose schema section holds the array `[1,2,3]`. -/
def arrSchemaDoc : String :=
  "=== REPORT ===\nr\n=== JSON ===\n```json\n\x7b\"a\":1\x7d\n```\n=== JSON_SCHEMA ===\n```json\n[1,2,3]\n```"

/-- A full-shape document whose schema section holds the array `[true]`. -/
def boolArrSchemaDoc : String :=
  "=== REPORT ===\nr\n=== JSON ===\n```json\n\x7b\"a\":1\x7d\n```\n=== JSON_SCHEMA ===\n```json\n[true]\n```"

/-- A section whose trimmed text ends with a well-formed JSON object
preceded by another brace group. -/
def twoObjectsChunk : String := "\x7b\"a\":1\x7d \x7b\"b\":2\x7d"

/-- A section whose JSON sits on the same line as the opening fence. -/
def oneLineFenceChunk : String := "```json \x7b\"a\":1\x7d```"

/-- The per-sheet predicate equivalent to applying the include filter
first and the exclude filter to the already-filtered set. -/
def sheetKeep (inc exc : Option (List String)) (s : String) : Bool :=
  (match inc with | none => true | some l => l.contains s) &&
  (match exc with | none => true | some l => !l.contains s)

/-! ## Helper lemmas -/

theorem length_dropWhile_le' (p : Char → Bool) (l : List Char) :
    (l.dropWhile p).length ≤ l.length := by
  induction l with
  | nil => simp [List.dropWhile]
  | cons c t ih =>
    by_cases h : p c
    · simp [List.dropWhile, h]
      omega
    · simp [List.dropWhile, h]

theorem pyLStripS_length_le (s : String) : (pyLStripS s).length ≤ s.length := by
  show (s.data.dropWhile isPySpace).length ≤ s.data.length
  exact length_dropWhile_le' isPySpace s.data

theorem concatStrings_cons (p : String) (ps : List String) :
    concatStrings (p :: ps) = p ++ concatStrings ps := rfl

theorem concatStrings_length (l : List String) :
    (concatStrings l).length = (l.map String.length).sum := by
  induction l with
  | nil => rfl
  | cons p ps ih => simp [concatStrings, String.length_append, ih]

/-- Budget invariant of the concatenation loop: starting from a running
total within budget, the loop's output never pushes the total past it. -/
theorem concatAux_budget (B : Nat) (render : String → String) :
    ∀ (sheets : List String) (totalLen : Nat), totalLen ≤ B →
      totalLen + (concatStrings (concatAux B render sheets totalLen)).length ≤ B := by
  intro sheets
  induction sheets with
  | nil => intro totalLen h; simpa [concatAux, concatStrings] using h
  | cons sheet rest ih =>
    intro totalLen h
    by_cases hb : B < totalLen + (sheetBlock sheet (render sheet)).length
    · by_cases hn : totalLen + (truncNote B sheet).length ≤ B
      · simp only [concatAux, if_pos hb, if_pos hn]
        simpa [concatStrings, String.length_append] using hn
      · simp only [concatAux, if_pos hb, if_neg hn]
        simpa [concatStrings] using h
    · simp only [concatAux, if_neg hb]
      rw [concatStrings_cons, String.length_append]
      have := ih (totalLen + (sheetBlock sheet (render sheet)).length) (by omega)
      omega

/-- Shape of the loop output: either every sheet was appended, or the
output is the whole blocks of a proper prefix, followed by the
truncation note for the first sheet that did not fit exactly when that
note fits the remaining budget. -/
theorem concatAux_cases (B : Nat) (render : String → String) :
    ∀ (sheets : List String) (totalLen : Nat),
      concatAux B render sheets totalLen = sheets.map (renderBlock render)
      ∨ ∃ pre s rest, sheets = pre ++ s :: rest ∧
          B < totalLen + blocksLen render pre + (renderBlock render s).length ∧
          ((totalLen + blocksLen render pre + (truncNote B s).length ≤ B ∧
            concatAux B render sheets totalLen =
              pre.map (renderBlock render) ++ [truncNote B s])
           ∨ (B < totalLen + blocksLen render pre + (truncNote B s).length ∧
            concatAux B render sheets totalLen = pre.map (renderBlock render))) := by
  intro sheets
  induction sheets with
  | nil => intro totalLen; left; rfl
  | cons sheet rest ih =>
    intro totalLen
    by_cases hb : B < totalLen + (sheetBlock sheet (render sheet)).length
    · right
      refine ⟨[], sheet, rest, rfl, ?_, ?_⟩
      · simpa [blocksLen, renderBlock] using hb
      · by_cases hn : totalLen + (truncNote B sheet).length ≤ B
        · left
          constructor
          · simpa [blocksLen] using hn
          · simp [concatAux, if_pos hb, if_pos hn]
        · right
          constructor
          · simp only [blocksLen, List.map_nil, List.sum_nil, Nat.add_zero]; omega
          · simp [concatAux, if_pos hb, if_neg hn]
    · have hstep : concatAux B render (sheet :: rest) totalLen =
          renderBlock render sheet ::
            concatAux B render rest (totalLen + (sheetBlock sheet (render sheet)).length) := by
        simp [concatAux, if_neg hb, renderBlock]
      rcases ih (totalLen + (sheetBlock sheet (render sheet)).length) with hall | ⟨pre, s, rest', heq, hlt, hcase⟩
      · left; rw [hstep, hall]; rfl
      · right
        refine ⟨sheet :: pre, s, rest', by rw [heq]; rfl, ?_, ?_⟩
        · have : blocksLen render (sheet :: pre) =
              (sheetBlock sheet (render sheet)).length + blocksLen render pre := by
            simp [blocksLen, renderBlock]
          omega
        · have hbl : blocksLen render (sheet :: pre) =
              (sheetBlock sheet (render sheet)).length + blocksLen render pre := by
            simp [blocksLen, renderBlock]
          rcases hcase with ⟨hfit, hout⟩ | ⟨hnofit, hout⟩
          · left
            constructor
            · omega
            · rw [hstep, hout]; rfl
          · right
            constructor
            · omega
            · rw [hstep, hout]; rfl

theorem filter_filter_and (p q : String → Bool) (l : List String) :
    (l.filter p).filter q = l.filter (fun a => p a && q a) := by
  induction l with
  | nil => rfl
  | cons x t ih =>
    by_cases hp : p x
    · by_cases hq : q x
      · simp [List.filter, hp, hq, ih]
      · simp [List.filter, hp, hq, ih]
    · simp [List.filter, hp, ih]

/-! ## Claim theorems: the workbook concatenator -/

/-- C1: for every workbook, sheet filter, per-sheet rendering, and every
character budget, the combined markdown returned by
`parse_workbook_all_sheets_to_markdown` has length at most the budget,
the truncation notice included. -/
theorem parse_workbook_length_le_budget (B : Nat) (render : String → String)
    (names : List String) (inc exc : Option (List String)) :
    (parse_workbook_all_sheets_to_markdown B render names inc exc).length ≤ B := by
  have h := concatAux_budget B render (applySheetFilters names inc exc) 0 (Nat.zero_le B)
  have h2 := pyLStripS_length_le
    (concatStrings (concatAux B render (applySheetFilters names inc exc) 0))
  unfold parse_workbook_all_sheets_to_markdown
  omega

/-- C4 counterexample: truncation can occur with no signal in the
returned value.  With budget 20, sheet `B` of the two-sheet workbook is
dropped, yet the returned string is exactly the one returned for the
one-sheet workbook, and no truncation notice appears: the return value
is a plain string carrying no `truncated` flag. -/
theorem silent_truncation_example :
    parse_workbook_all_sheets_to_markdown 20 render1 ["A", "B"] none none =
      "## Sheet: A\n\nx\n"
    ∧ parse_workbook_all_sheets_to_markdown 20 render1 ["A"] none none =
      "## Sheet: A\n\nx\n"
    ∧ containsSub (parse_workbook_all_sheets_to_markdown 20 render1 ["A", "B"] none none)
        "Stopped concatenation" = false :=
  ⟨rfl, rfl, rfl⟩

/-- C4 amended: truncation is never an error — the function totally
returns a string — and it is signaled only by appending the truncation
notice for the first sheet that did not fit, exactly when that notice
itself fits in the remaining budget; otherwise the truncation is
silent. -/
theorem truncation_signaling_cases (B : Nat) (render : String → String)
    (names : List String) (inc exc : Option (List String)) :
    parse_workbook_all_sheets_to_markdown B render names inc exc =
      pyLStripS (concatStrings (concatAux B render (applySheetFilters names inc exc) 0))
    ∧ (concatAux B render (applySheetFilters names inc exc) 0 =
        (applySheetFilters names inc exc).map (renderBlock render)
       ∨ ∃ pre s rest, applySheetFilters names inc exc = pre ++ s :: rest ∧
          B < blocksLen render pre + (renderBlock render s).length ∧
          ((blocksLen render pre + (truncNote B s).length ≤ B ∧
            concatAux B render (applySheetFilters names inc exc) 0 =
              pre.map (renderBlock render) ++ [truncNote B s])
           ∨ (B < blocksLen render pre + (truncNote B s).length ∧
            concatAux B render (applySheetFilters names inc exc) 0 =
              pre.map (renderBlock render)))) := by
  refine ⟨rfl, ?_⟩
  have h := concatAux_cases B render (applySheetFilters names inc exc) 0
  simpa using h

/-- C5 counterexample: the final `lstrip` removes the leading newlines
of the first included block, so that block is not present in the output
in full even though its sheet was included. -/
theorem first_block_lstripped :
    containsSub (parse_workbook_all_sheets_to_markdown 100 (fun _ => "x") ["A"] none none)
      (sheetBlock "A" "x") = false
    ∧ parse_workbook_all_sheets_to_markdown 100 (fun _ => "x") ["A"] none none =
      "## Sheet: A\n\nx\n" :=
  ⟨rfl, rfl⟩

/-- C5 amended: before the final `lstrip`, the output is the
concatenation of the whole rendered blocks of an order-preserving
prefix of the filtered sheets — no block is split at the budget
boundary, and once a sheet fails to fit no further sheet contributes —
possibly followed by one truncation note; the returned string is that
concatenation with its leading whitespace stripped. -/
theorem blocks_whole_prefix_with_note (B : Nat) (render : String → String)
    (names : List String) (inc exc : Option (List String)) :
    ∃ included rest, applySheetFilters names inc exc = included ++ rest ∧
      (parse_workbook_all_sheets_to_markdown B render names inc exc =
         pyLStripS (concatStrings (included.map (renderBlock render)))
       ∨ ∃ s rest', rest = s :: rest' ∧
          parse_workbook_all_sheets_to_markdown B render names inc exc =
            pyLStripS (concatStrings (included.map (renderBlock render) ++ [truncNote B s]))) := by
  rcases concatAux_cases B render (applySheetFilters names inc exc) 0 with
    hall | ⟨pre, s, rest, heq, _, hc⟩
  · refine ⟨applySheetFilters names inc exc, [], by simp, Or.inl ?_⟩
    unfold parse_workbook_all_sheets_to_markdown
    rw [hall]
  · rcases hc with ⟨_, hout⟩ | ⟨_, hout⟩
    · refine ⟨pre, s :: rest, heq, Or.inr ⟨s, rest, rfl, ?_⟩⟩
      unfold parse_workbook_all_sheets_to_markdown
      rw [hout]
    · refine ⟨pre, s :: rest, heq, Or.inl ?_⟩
      unfold parse_workbook_all_sheets_to_markdown
      rw [hout]

/-- C8: the sheets fed to the concatenation loop are the workbook's
native order restricted to the include-list (when given), with the
exclude-list then applied to that filtered set (when given), preserving
native order. -/
theorem sheet_filter_include_then_exclude (B : Nat) (render : String → String)
    (names : List String) (inc exc : Option (List String)) :
    applySheetFilters names inc exc = names.filter (sheetKeep inc exc)
    ∧ (applySheetFilters names inc exc).Sublist names
    ∧ parse_workbook_all_sheets_to_markdown B render names inc exc =
        pyLStripS (concatStrings (concatAux B render
          (names.filter (sheetKeep inc exc)) 0)) := by
  have h1 : applySheetFilters names inc exc = names.filter (sheetKeep inc exc) := by
    cases inc with
    | none =>
      cases exc with
      | none =>
        show names = names.filter (fun s => sheetKeep none none s)
        simp [sheetKeep]
      | some e =>
        show names.filter (fun s => !e.contains s) =
          names.filter (fun s => sheetKeep none (some e) s)
        simp [sheetKeep]
    | some i =>
      cases exc with
      | none =>
        show names.filter (fun s => i.contains s) =
          names.filter (fun s => sheetKeep (some i) none s)
        simp [sheetKeep]
      | some e =>
        show (names.filter (fun s => i.contains s)).filter (fun s => !e.contains s) =
          names.filter (sheetKeep (some i) (some e))
        rw [filter_filter_and]
        rfl
  refine ⟨h1, ?_, ?_⟩
  · rw [h1]; exact List.filter_sublist _
  · unfold parse_workbook_all_sheets_to_markdown
    rw [h1]

/-! ## Claim theorems: parse_raw_data -/

/-- C9: the existence check precedes the extension dispatch, so a
missing file reports `FileNotFoundError` whatever its extension; an
existing file with an extension in neither supported family reports the
unsupported-extension error. -/
theorem existence_check_precedes_extension (fsExists : String → Bool)
    (loadCsv loadExcel : String → String) (path : String) :
    (fsExists path = false →
      parse_raw_data fsExists loadCsv loadExcel path = .error (.fileNotFound path))
    ∧ (fsExists path = true →
      strLower (pathSuffix path) ∉ SUPPORTED_CSV_EXTS →
      strLower (pathSuffix path) ∉ SUPPORTED_EXCEL_EXTS →
      parse_raw_data fsExists loadCsv loadExcel path =
        .error (.unsupportedExt (strLower (pathSuffix path)))) := by
  constructor
  · intro h
    simp [parse_raw_data, h]
  · intro h h1 h2
    simp [parse_raw_data, h, h1, h2]

/-- Witness for C9 at a nonexistent path whose extension matches
neither supported family. -/
theorem existence_check_precedes_extension_witness :
    ((fun _ : String => false) "data.txt" = false)
    ∧ parse_raw_data (fun _ => false) (fun _ => "") (fun _ => "") "data.txt" =
      .error (.fileNotFound "data.txt") :=
  ⟨rfl, (existence_check_precedes_extension
    (fun _ => false) (fun _ => "") (fun _ => "") "data.txt").1 rfl⟩

/-! ## Claim theorems: the extractor -/

/-- C2 counterexample: the minimal JSON+JSON_SCHEMA document (no REPORT
marker) is not extracted; the only entry point unconditionally looks
for the REPORT section first and fails naming its pattern. -/
theorem minimal_shape_rejected :
    parse_report_json_schema minimalDoc =
      .error (.startSectionNotFound "===\\s*REPORT\\s*===") := rfl

/-- C2 amended: the extractor requires the REPORT section; prepending
one to the minimal document makes extraction succeed with payload
`{"a":1}` and schema `{"type":"object"}`, while the minimal document
itself fails with the section error naming the REPORT marker. -/
theorem report_required_roundtrip :
    parse_report_json_schema fullDoc =
      .ok ⟨"Some report.", .obj [("a", .num 1)], .obj [("type", .str "object")]⟩
    ∧ parse_report_json_schema minimalDoc =
      .error (.startSectionNotFound "===\\s*REPORT\\s*===") :=
  ⟨rfl, rfl⟩

/-- C3 counterexample: on a section whose trimmed text ends with the
well-formed object `{"b":2}` preceded by the brace group `{"a":1}`,
extraction does not parse the final anchored object; the anchored regex
spans from the first opening brace to the end, and the whole span is
invalid JSON. -/
theorem anchored_span_not_last_object :
    _extract_json_from_chunk twoObjectsChunk.data = .error .jsonInvalid := rfl

theorem pyRStrip_eq_self {l : List Char} {c : Char}
    (hc : l.getLast? = some c) (hw : isPySpace c = false) : pyRStrip l = l := by
  unfold pyRStrip
  cases hr : l.reverse with
  | nil =>
    have : l = [] := by simpa using congrArg List.reverse hr
    subst this
    simp at hc
  | cons x t =>
    have hx : x = c := by
      have h1 : l.getLast? = l.reverse.head? := List.getLast?_eq_head?_reverse
      rw [hc, hr] at h1
      simpa using h1.symm
    subst hx
    rw [List.dropWhile_cons_of_neg (by simp [hw])]
    rw [← hr, List.reverse_reverse]

theorem pyStrip_eq_self {l : List Char} {a b : Char}
    (hh : l.head? = some a) (hwa : isPySpace a = false)
    (hl : l.getLast? = some b) (hwb : isPySpace b = false) : pyStrip l = l := by
  have h1 : l.dropWhile isPySpace = l := by
    cases l with
    | nil => rfl
    | cons x t =>
      have hx : x = a := by simpa using hh
      subst hx
      exact List.dropWhile_cons_of_neg (by simp [hwa])
  show ((l.dropWhile isPySpace).reverse.dropWhile isPySpace).reverse = l
  rw [h1]
  exact pyRStrip_eq_self hl hwb

theorem spanEndHere_self {b : List Char}
    (hb : b.head? = some '\x7b') (hl : b.getLast? = some '\x7d') :
    spanEndHere b = some b := by
  cases b with
  | nil => simp at hb
  | cons c t =>
    have hc : c = '\x7b' := by simpa using hb
    subst hc
    have hr : pyRStrip ('\x7b' :: t) = '\x7b' :: t := pyRStrip_eq_self hl (by decide)
    have ht : t ≠ [] := by
      intro he
      subst he
      simp at hl
    have h2 : 2 ≤ ('\x7b' :: t).length := by
      cases t with
      | nil => exact absurd rfl ht
      | cons y u => simp
    simp only [spanEndHere, hr]
    simp [hl, h2, ht]

theorem searchSpanEnd_append (a : List Char) {b g : List Char}
    (ha : ∀ c ∈ a, c ≠ '\x7b' ∧ c ≠ '[')
    (hb : spanEndHere b = some g) :
    searchSpanEnd (a ++ b) = some g := by
  induction a with
  | nil =>
    cases b with
    | nil => simp [spanEndHere] at hb
    | cons c t => simp [searchSpanEnd, hb]
  | cons c a' ih =>
    have hc := ha c (by simp)
    have hhere : spanEndHere (c :: (a' ++ b)) = none := by
      simp [spanEndHere, hc.1, hc.2]
    show searchSpanEnd (c :: (a' ++ b)) = some g
    simp only [searchSpanEnd, hhere]
    exact ih (fun x hx => ha x (by simp [hx]))

/-- C3 amended: when no fenced json block matches, the end-anchored
fallback selects the span running from the first opening delimiter of
the trimmed text to its final closing brace — not the last anchored
top-level span — and extraction succeeds or fails with the
invalid-JSON error according to `json.loads` on that whole span. -/
theorem unfenced_span_starts_at_first_opener (chunk a b : List Char)
    (hfen : searchFenced chunk = none)
    (hsplit : pyStrip chunk = a ++ b)
    (ha : ∀ c ∈ a, c ≠ '\x7b' ∧ c ≠ '[')
    (hb : b.head? = some '\x7b')
    (hlast : (pyStrip chunk).getLast? = some '\x7d') :
    _extract_json_from_chunk chunk =
      match jsonLoads b with
      | some v => .ok v
      | none => .error .jsonInvalid := by
  have hbne : b ≠ [] := by
    intro h
    subst h
    simp at hb
  have hblast : b.getLast? = some '\x7d' := by
    rw [hsplit, List.getLast?_append_of_ne_nil a hbne] at hlast
    exact hlast
  have hhere : spanEndHere b = some b := spanEndHere_self hb hblast
  have hsearch : searchSpanEnd (pyStrip chunk) = some b := by
    rw [hsplit]
    exact searchSpanEnd_append a ha hhere
  have hstrip : pyStrip b = b := pyStrip_eq_self hb (by decide) hblast (by decide)
  simp only [_extract_json_from_chunk, hfen, hsearch, hstrip]

/-- Witness for the amended C3 at the two-object chunk: the whole
trimmed text is the selected span and fails to parse. -/
theorem unfenced_span_starts_at_first_opener_witness :
    searchFenced twoObjectsChunk.data = none
    ∧ _extract_json_from_chunk twoObjectsChunk.data = Except.error PError.jsonInvalid := by
  refine ⟨rfl, ?_⟩
  exact (unfenced_span_starts_at_first_opener twoObjectsChunk.data []
    (pyStrip twoObjectsChunk.data) rfl rfl (by simp) rfl rfl).trans rfl

/-- C6: section extraction fails with the section error naming the
missing marker exactly when the start marker is absent, or when an end
marker is requested but absent after the start match; in particular a
document missing `=== JSON_SCHEMA ===` fails naming that marker. -/
theorem section_not_found_iff_marker_absent :
    (∀ (text : List Char) (sm : Marker) (em : Option Marker),
      (_extract_between text sm em = .error (.startSectionNotFound (markerPat sm)) ↔
        searchMarker (markerWord sm) text = none)
      ∧ ∀ m, em = some m →
        (_extract_between text sm em = .error (.endSectionNotFound (markerPat m)) ↔
          ∃ st en, searchMarker (markerWord sm) text = some (st, en) ∧
            searchMarker (markerWord m) (text.drop en) = none))
    ∧ parse_report_json_schema noSchemaDoc =
        .error (.endSectionNotFound "===\\s*JSON_SCHEMA\\s*===") := by
  constructor
  · intro text sm em
    constructor
    · cases hs : searchMarker (markerWord sm) text with
      | none => simp [_extract_between, hs]
      | some p =>
        obtain ⟨st, en⟩ := p
        cases em with
        | none => simp [_extract_between, hs]
        | some m =>
          cases he : searchMarker (markerWord m) (text.drop en) with
          | none => simp [_extract_between, hs, he]
          | some q => simp [_extract_between, hs, he]
    · intro m hm
      subst hm
      cases hs : searchMarker (markerWord sm) text with
      | none => simp [_extract_between, hs]
      | some p =>
        obtain ⟨st, en⟩ := p
        cases he : searchMarker (markerWord m) (text.drop en) with
        | none =>
          simp [_extract_between, hs, he]
          exact ⟨st, en, ⟨rfl, rfl⟩, he⟩
        | some q => simp [_extract_between, hs, he]
  · rfl

/-- Witness for C6: a text with no markers at all fails naming the
requested start marker. -/
theorem section_not_found_iff_marker_absent_witness :
    _extract_between "no markers here".data Marker.json_schema none =
      .error (.startSectionNotFound "===\\s*JSON_SCHEMA\\s*===") :=
  (section_not_found_iff_marker_absent.1
    "no markers here".data Marker.json_schema none).1.mpr rfl

/-- C7: whenever all three sections are found and both JSON-bearing
sections yield parsed values, the assembled result accepts a payload
that is an object or an array, and fails with the schema error exactly
whenever the schema value is anything other than a JSON object; in
particular a schema section holding `[1,2,3]` fails so. -/
theorem schema_must_be_object :
    (∀ (text : String) (rc jc sc : List Char) (p v : JsonVal),
      _extract_between (_normalize_newlines text).data Marker.report (some Marker.json) = .ok rc →
      _extract_between (_normalize_newlines text).data Marker.json (some Marker.json_schema) = .ok jc →
      _extract_between (_normalize_newlines text).data Marker.json_schema none = .ok sc →
      _extract_json_from_chunk jc = .ok p →
      _extract_json_from_chunk sc = .ok v →
      (((∃ es, p = JsonVal.obj es) ∨ (∃ xs, p = JsonVal.arr xs)) →
        (∃ fs, v = JsonVal.obj fs) →
        parse_report_json_schema text = .ok ⟨⟨pyStrip rc⟩, p, v⟩)
      ∧ ((∀ fs, v ≠ JsonVal.obj fs) →
        parse_report_json_schema text = .error .schemaNotObject))
    ∧ parse_report_json_schema arrSchemaDoc = .error .schemaNotObject := by
  constructor
  · intro text rc jc sc p v h1 h2 h3 h4 h5
    constructor
    · rintro _ ⟨fs, rfl⟩
      simp [parse_report_json_schema, h1, h2, h3, h4, h5]
    · intro hno
      cases v with
      | obj fs => exact absurd rfl (hno fs)
      | null => simp [parse_report_json_schema, h1, h2, h3, h4, h5]
      | bool b => simp [parse_report_json_schema, h1, h2, h3, h4, h5]
      | num n => simp [parse_report_json_schema, h1, h2, h3, h4, h5]
      | str s => simp [parse_report_json_schema, h1, h2, h3, h4, h5]
      | arr xs => simp [parse_report_json_schema, h1, h2, h3, h4, h5]
  · rfl

/-- Witness for C7 at a document whose schema section holds `[true]`. -/
theorem schema_must_be_object_witness :
    parse_report_json_schema boolArrSchemaDoc = .error .schemaNotObject :=
  (schema_must_be_object.1 boolArrSchemaDoc "r".data
      "```json\n\x7b\"a\":1\x7d\n```".data "```json\n[true]\n```".data
      (JsonVal.obj [("a", JsonVal.num 1)]) (JsonVal.arr [JsonVal.bool true])
      rfl rfl rfl rfl rfl).2
    (fun _fs hfs => JsonVal.noConfusion hfs)

theorem enumFrom_filter_nl_nil {w : List Char} (h : '\n' ∉ w) :
    ∀ n, (List.enumFrom n w).filter (fun p => p.2 == '\n') = [] := by
  induction w with
  | nil => intro n; rfl
  | cons c t ih =>
    intro n
    have hc : (c == '\n') = false := by
      simp only [beq_eq_false_iff_ne, ne_eq]
      intro he
      exact h (by simp [he])
    have ht := ih (fun hm => h (List.mem_cons_of_mem _ hm)) (n + 1)
    simp [List.enumFrom, List.filter, hc, ht]

theorem matchLitCI_suffix : ∀ (p s r : List Char), matchLitCI p s = some r →
    r.IsSuffix s := by
  intro p
  induction p with
  | nil =>
    intro s r h
    simp only [matchLitCI, Option.some.injEq] at h
    subst h
    exact List.suffix_refl s
  | cons x ps ih =>
    intro s r h
    cases s with
    | nil => simp [matchLitCI] at h
    | cons c cs =>
      simp only [matchLitCI] at h
      by_cases hx : (x.toLower == c.toLower) = true
      · rw [if_pos hx] at h
        exact (ih cs r h).trans (List.suffix_cons c cs)
      · rw [if_neg hx] at h
        exact absurd h (by simp)

theorem fencedHere_none_of_no_nl {s : List Char} (h : '\n' ∉ s) :
    fencedHere s = none := by
  unfold fencedHere
  cases hm : matchLitCI "```json".data s with
  | none => rfl
  | some r =>
    have hr : r ⊆ s := (matchLitCI_suffix _ _ _ hm).subset
    have hw : '\n' ∉ r.takeWhile isPySpace := by
      intro hmem
      exact h (hr ((List.takeWhile_sublist isPySpace).subset hmem))
    have hnil : (List.enum (r.takeWhile isPySpace)).filter (fun p => p.2 == '\n') = [] :=
      enumFrom_filter_nl_nil hw 0
    simp only [hm, hnil, List.map_nil, List.reverse_nil, List.findSome?_nil]

theorem searchFenced_none_of_no_nl : ∀ (s : List Char), '\n' ∉ s →
    searchFenced s = none := by
  intro s
  induction s with
  | nil => intro _; rfl
  | cons c t ih =>
    intro h
    have h1 : fencedHere (c :: t) = none := fencedHere_none_of_no_nl h
    have h2 : searchFenced t = none := ih (fun hm => h (List.mem_cons_of_mem _ hm))
    simp [searchFenced, h1, h2]

/-- C10: the fenced strategy requires a newline between the opening
fence and the content and between the content and the closing fence: a
chunk containing no newline never matches it, and neither does a
missing newline on either side alone; the one-line chunk
```` ```json {"a":1}``` ```` is instead handled by the span fallback,
which extracts `{"a":1}`. -/
theorem fence_requires_newlines :
    (∀ chunk : List Char, '\n' ∉ chunk → searchFenced chunk = none)
    ∧ searchFenced oneLineFenceChunk.data = none
    ∧ _extract_json_from_chunk oneLineFenceChunk.data = .ok (.obj [("a", .num 1)])
    ∧ searchFenced "```json \x7b\"a\":1\x7d\n```".data = none
    ∧ searchFenced "```json\n\x7b\"a\":1\x7d```".data = none :=
  ⟨searchFenced_none_of_no_nl, rfl, rfl, rfl, rfl⟩

/-- Witness for C10 at a newline-free chunk. -/
theorem fence_requires_newlines_witness :
    ('\n' ∉ "abc".data) ∧ searchFenced "abc".data = none :=
  ⟨by decide, fence_requires_newlines.1 "abc".data (by decide)⟩
